import Mathlib

/-!
Verification development for the winget.tr crawl/persist engine.

The repository contains two near-duplicate implementations of the same
engine:
* `scripts/generate-api.js` (class WingetApiGenerator, here called the
  "engine A" or part_000 variant): fetchWithRetry, fetchPackageVersions,
  fetchManifest, processPackage, generateApiFiles.
* the WingetDetailedGenerator variant (here "engine B" or "Detailed"):
  fetchWithRetry, getVersionPaths, getManifestFiles, processPackage,
  saveFiles, generateStats, and a checkpointing generateApiFiles loop.

The shallow embedding below models the network as pre-supplied data: a
version directory carries the list of files that fetching its URL would
return, and each file carries the parsed-YAML result of fetching its
download URL (none when the fetch or the YAML parse fails, which the JS
code catches and turns into null).

JavaScript specifics modelled explicitly:
* `Array.prototype.sort` is stable (ES2019); it is modelled as a stable
  insertion sort driven by the user comparator.
* `Number(s)` combined with the `|| 0` in the comparator: a component
  consisting of one or more digits parses to its value; every other
  component (empty string, non-numeric text, i.e. the NaN cases) is
  coerced to 0 by `|| 0`.  Exponent or hex number forms do not occur in
  version directory names and are not modelled.
* `a || b` on strings: undefined, null and the empty string fall back
  to `b` (JS truthiness).
* Wall-clock fields (updatedAt, createdAt, stats timing) are omitted:
  they are real-time values outside the functional model.
-/

/-- One character-delimited split, mirroring the JS `String.split` used
with a single-character separator (`split('.')`, `split(',')`). -/
def splitOnChar (sep : Char) : List Char → List (List Char)
  | [] => [[]]
  | c :: cs =>
    match splitOnChar sep cs with
    | [] => if c = sep then [[], []] else [[c]]
    | h :: t => if c = sep then [] :: h :: t else (c :: h) :: t

/-- Decimal value of a digit list (helper for the `Number` model). -/
def digitsToNat (cs : List Char) : Nat :=
  cs.foldl (fun n c => n * 10 + (c.toNat - 48)) 0

/-- Model of `Number(component) || 0` in the version comparator of
`fetchPackageVersions`: digit-only components parse to their value,
everything else (empty string gives 0, NaN cases are coerced by
`|| 0`) yields 0. -/
def jsComponent (cs : List Char) : Nat :=
  if !cs.isEmpty && cs.all Char.isDigit then digitsToNat cs else 0

/-- `name.split('.').map(Number)` with the `|| 0` coercion applied. -/
def versionComponents (s : String) : List Nat :=
  (splitOnChar '.' s.data).map jsComponent

/-- First component differing from the padded 0, as the comparator
sees it once one side is exhausted: `numB - numA` with `numA = 0`. -/
def firstNonzero : List Nat → Int
  | [] => 0
  | b :: bs => if b = 0 then firstNonzero bs else (b : Int)

/-- The component loop of the comparator in `fetchPackageVersions`
(part_000 lines 80-89): walk both component lists, reading a missing
component as 0, and return `numB - numA` at the first difference. -/
def cmpComponents : List Nat → List Nat → Int
  | [], bs => firstNonzero bs
  | a :: as, [] => if a = 0 then cmpComponents as [] else -(a : Int)
  | a :: as, b :: bs => if a = b then cmpComponents as bs else (b : Int) - (a : Int)

/-- The full JS comparator `(a, b) => ...` of `fetchPackageVersions`
applied to two version strings. A negative result means the first
argument sorts earlier (is the larger version). -/
def cmpVersions (a b : String) : Int :=
  cmpComponents (versionComponents a) (versionComponents b)

/-- Insert one element into an already user-sorted list, placing it
before the first element it does not have to follow.  Together with
`sortStable` this is the standard model of the stable
`Array.prototype.sort`. -/
def sortInsert (c : α → α → Int) (x : α) : List α → List α
  | [] => [x]
  | y :: ys => if c x y ≤ 0 then x :: y :: ys else y :: sortInsert c x ys

/-- Stable sort by a JS comparator (ES2019 `Array.prototype.sort`). -/
def sortStable (c : α → α → Int) : List α → List α
  | [] => []
  | x :: xs => sortInsert c x (sortStable c xs)

/-- Classifier used to state the spec sentences about entries that
"fail to parse as numeric-dotted strings": every dot-separated
component is a nonempty run of digits. -/
def parsesNumeric (s : String) : Bool :=
  (splitOnChar '.' s.data).all (fun cs => !cs.isEmpty && cs.all Char.isDigit)

/-- `s.endsWith(pat)` on the character lists of the two strings. -/
def strEndsWith (s pat : String) : Bool :=
  pat.data == s.data.drop (s.data.length - pat.data.length)

/-- `f.name.endsWith('.yaml') || f.name.endsWith('.yml')`, the manifest
file recognition test shared by both engines. -/
def isYamlName (n : String) : Bool :=
  strEndsWith n ".yaml" || strEndsWith n ".yml"

/-- JS whitespace trim (`String.prototype.trim`) on a character list. -/
def jsTrim (cs : List Char) : List Char :=
  ((cs.dropWhile Char.isWhitespace).reverse.dropWhile Char.isWhitespace).reverse

/-- A parsed manifest document: the key/value fields the two engines
read off the YAML document. A `none` field is an absent key (JS
`undefined`).  Real winget manifests may hold other shapes in these
keys; the engines only ever treat them as strings or opaque lists,
which is the fragment modelled here. -/
structure Manifest where
  PackageName : Option String
  Publisher : Option String
  Description : Option String
  Tags : Option String
  Homepage : Option String
  License : Option String
  LicenseUrl : Option String
  Author : Option String
  Moniker : Option String
  MinOSVersion : Option String
  Installers : List String
  Commands : List String
  Protocols : List String
deriving DecidableEq

/-- A manifest with every field absent. -/
def emptyManifest : Manifest :=
  { PackageName := none, Publisher := none, Description := none,
    Tags := none, Homepage := none, License := none, LicenseUrl := none,
    Author := none, Moniker := none, MinOSVersion := none,
    Installers := [], Commands := [], Protocols := [] }

/-- A file entry of a version directory listing.  `content` is the
result of fetching its download URL and YAML-parsing it; `none` models
a fetch or parse failure (both are caught and turned into null). -/
structure RFile where
  name : String
  content : Option Manifest
deriving DecidableEq

/-- A directory-listing entry at the version level.  `type` is the
GitHub contents-API type tag ("dir" or "file"); `files` is the listing
that fetching this entry as a directory would return. -/
structure VersionDir where
  name : String
  type : String
  files : List RFile
deriving DecidableEq

/-- `fetchPackageVersions` (part_000 lines 76-94): keep only
directory-type entries and sort them with the dotted-numeric JS
comparator on their names. -/
def fetchPackageVersions (data : List VersionDir) : List VersionDir :=
  sortStable (fun a b => cmpVersions a.name b.name)
    (data.filter (fun i => i.type == "dir"))

/-- `v || fallback` for an optional string field (JS truthiness: absent
and empty string both fall back). -/
def jsOr (v : Option String) (fallback : String) : String :=
  match v with
  | none => fallback
  | some s => if s.isEmpty then fallback else s

/-- Engine A tag parsing (part_000 line 124):
`(manifest.Tags || '').split(',').map(t => t.trim()).filter(Boolean)`. -/
def parseTags (tags : Option String) : List String :=
  (((splitOnChar ',' (jsOr tags "").data).map
    (fun cs => String.mk (jsTrim cs))).filter (fun s => !s.isEmpty))

/-- Engine B tag parsing (WingetDetailedGenerator line 119):
`manifest.Tags ? manifest.Tags.split(',').map(t => t.trim()) : []`.
No filter: empty entries survive. -/
def parseTagsDetailed (tags : Option String) : List String :=
  match tags with
  | none => []
  | some s =>
    if s.isEmpty then []
    else (splitOnChar ',' s.data).map (fun cs => String.mk (jsTrim cs))

/-- `fetchManifest` (part_000 lines 96-108): list the latest version
directory, pick the FIRST file whose name ends in .yaml or .yml, fetch
and parse it.  The `none` version argument models `versions[0]` on an
empty list (`undefined`): reading `.url` off it throws, the catch
returns null.  A missing yaml file returns undefined and a failed
fetch or parse returns null, both modelled as `none`. -/
def fetchManifest : Option VersionDir → Option Manifest
  | none => none
  | some v =>
    match v.files.find? (fun f => isYamlName f.name) with
    | none => none
    | some f => f.content

/-- The `latest` block built by engine A `processPackage` (part_000
lines 120-131). -/
structure LatestA where
  name : String
  publisher : String
  version : String
  tags : List String
  description : String
  homepage : String
  license : String
  licenseUrl : String
  author : String
  moniker : String
deriving DecidableEq

/-- The record built by engine A `processPackage` (part_000 lines
117-136).  Wall-clock fields updatedAt and createdAt are omitted. -/
structure PackageRecordA where
  id : String
  versions : List String
  latest : LatestA
  installers : List String
  featured : Bool
deriving DecidableEq

/-- Engine A `processPackage` (part_000 lines 110-142).  The second
component of the result is the `stats.processingErrors` increment:
the catch block that bumps it fires only when building the record
object throws, which cannot happen for a manifest of the modelled
shape, so every modelled path increments by 0.  With zero versions,
`versions[0]` is undefined, `fetchManifest` catches the resulting
TypeError and returns null, and `processPackage` returns null before
touching the counter. -/
def processPackage (publisherName packageName : String)
    (versions : List VersionDir) : Option PackageRecordA × Nat :=
  match fetchManifest versions.head? with
  | none => (none, 0)
  | some m =>
    match versions with
    | [] => (none, 0)
    | latestVersion :: _ =>
      (some {
        id := publisherName ++ "." ++ packageName
        versions := versions.map (fun v => v.name)
        latest := {
          name := jsOr m.PackageName packageName
          publisher := jsOr m.Publisher publisherName
          version := latestVersion.name
          tags := parseTags m.Tags
          description := jsOr m.Description ""
          homepage := jsOr m.Homepage ""
          license := jsOr m.License ""
          licenseUrl := jsOr m.LicenseUrl ""
          author := jsOr m.Author ""
          moniker := jsOr m.Moniker "" }
        installers := m.Installers
        featured := false }, 0)

/-- The run loop accumulation (part_000 lines 269-273): a package is
appended to `this.packages` only when `processPackage` returned a
truthy record. -/
def accumulate (acc : List PackageRecordA) (result : Option PackageRecordA) :
    List PackageRecordA :=
  match result with
  | some r => acc ++ [r]
  | none => acc

/-- Engine B `getVersionPaths` (WingetDetailedGenerator lines 53-65):
keep the directory-type entries, in listing order.  No sorting. -/
def getVersionPaths (data : List VersionDir) : List VersionDir :=
  data.filter (fun i => i.type == "dir")

/-- Engine B `getManifestFiles` (lines 67-75): all files with a
recognized manifest extension. -/
def getManifestFiles (files : List RFile) : List RFile :=
  files.filter (fun f => isYamlName f.name)

/-- The `latest` block built by engine B (lines 114-124). -/
structure LatestB where
  name : String
  publisher : String
  version : String
  description : String
  tags : List String
  homepage : String
  license : String
  licenseUrl : String
  author : String
deriving DecidableEq

/-- The record built by engine B `processPackage` (lines 111-132).
Wall-clock fields are omitted. -/
structure PackageRecordB where
  id : String
  versions : List String
  latest : LatestB
  installers : List String
  moniker : String
  minOSVersion : String
  commands : List String
  protocols : List String
deriving DecidableEq

/-- Engine B `processPackage` (WingetDetailedGenerator lines 87-137):
filter the version listing to directories, bail out with null on an
empty version list, read the FIRST recognized manifest file of the
first listed version, bail out with null when the file list is empty
or the content fetch/parse failed, otherwise build the record. -/
def processPackageDetailed (publisherName packageName : String)
    (listing : List VersionDir) : Option PackageRecordB :=
  let versionPaths := getVersionPaths listing
  match versionPaths with
  | [] => none
  | latestVersion :: _ =>
    match getManifestFiles latestVersion.files with
    | [] => none
    | f :: _ =>
      match f.content with
      | none => none
      | some m =>
        some {
          id := publisherName ++ "." ++ packageName
          versions := versionPaths.map (fun v => v.name)
          latest := {
            name := jsOr m.PackageName packageName
            publisher := jsOr m.Publisher publisherName
            version := latestVersion.name
            description := jsOr m.Description ""
            tags := parseTagsDetailed m.Tags
            homepage := jsOr m.Homepage ""
            license := jsOr m.License ""
            licenseUrl := jsOr m.LicenseUrl ""
            author := jsOr m.Author "" }
          installers := m.Installers
          moniker := jsOr m.Moniker ""
          minOSVersion := jsOr m.MinOSVersion ""
          commands := m.Commands
          protocols := m.Protocols }

/-- One request attempt against the remote API, as seen by
`fetchWithRetry`: success with a document, an explicit rate-limit
response (HTTP 403 in engine A, HTTP 429 in engine B), or any other
request failure. -/
inductive Attempt (α : Type) where
  | success (d : α)
  | quotaErr
  | transientErr
deriving DecidableEq

/-- How a `fetchWithRetry` call ends: resolves with a document, throws
(the error propagates to the caller), or falls off the end of the loop
and resolves with `undefined` (no document, no error). -/
inductive FetchResult (α : Type) where
  | ok (d : α)
  | thrown
  | undef
deriving DecidableEq

/-- The retry loop of `fetchWithRetry` (part_000 lines 35-50; the
WingetDetailedGenerator variant lines 24-51 differs only in delays and
in using 429 instead of 403 for the quota signal).  `resp i` is the
outcome of the request issued on loop iteration `i`.  The second
result component counts issued requests.  Structural recursion on the
remaining iteration count so that the loop `for (let i = 0; i <
retries; i++)` is `fuel = retries - i`:
* success returns the data;
* a quota error sleeps and `continue`s, consuming the iteration
  without the last-iteration throw check;
* any other error throws when `i === retries - 1`, else sleeps with
  backoff and moves to the next iteration;
* when the loop ends without returning, the function resolves with
  `undefined`. -/
def fetchWithRetryGo (resp : Nat → Attempt α) (retries : Nat) :
    Nat → Nat → FetchResult α × Nat
  | _, 0 => (FetchResult.undef, 0)
  | i, fuel + 1 =>
    match resp i with
    | Attempt.success d => (FetchResult.ok d, 1)
    | Attempt.quotaErr =>
      let r := fetchWithRetryGo resp retries (i + 1) fuel
      (r.1, r.2 + 1)
    | Attempt.transientErr =>
      if i = retries - 1 then (FetchResult.thrown, 1)
      else
        let r := fetchWithRetryGo resp retries (i + 1) fuel
        (r.1, r.2 + 1)

/-- Result of `fetchWithRetry(url, retries)`. -/
def fetchWithRetry (resp : Nat → Attempt α) (retries : Nat) : FetchResult α :=
  (fetchWithRetryGo resp retries 0 retries).1

/-- Number of request attempts a `fetchWithRetry(url, retries)` call
issues. -/
def fetchAttempts (resp : Nat → Attempt α) (retries : Nat) : Nat :=
  (fetchWithRetryGo resp retries 0 retries).2

/-- One loop body of the `saveFiles` grouping (WingetDetailedGenerator
lines 220-226): push the record onto the bucket of its publisher,
creating the bucket at the end of the object when absent (JS objects
keep insertion order). -/
def upsertRecord (acc : List (String × List PackageRecordB))
    (pkg : PackageRecordB) : List (String × List PackageRecordB) :=
  let p := pkg.latest.publisher
  if acc.any (fun e => e.1 == p) then
    acc.map (fun e => if e.1 == p then (e.1, e.2 ++ [pkg]) else e)
  else acc ++ [(p, [pkg])]

/-- The per-publisher grouping of `saveFiles` (WingetDetailedGenerator
lines 219-226): a JS object used as an ordered map, keys appearing in
first-occurrence order, each record pushed onto its publisher bucket. -/
def groupByPublisher (packages : List PackageRecordB) :
    List (String × List PackageRecordB) :=
  packages.foldl upsertRecord []

/-- The per-publisher occurrence counts of `getTopPublishers` (lines
258-269), again a JS object in insertion order. -/
def publisherCounts (packages : List PackageRecordB) : List (String × Nat) :=
  packages.foldl (fun acc pkg =>
    let p := pkg.latest.publisher
    if acc.any (fun e => e.1 == p) then
      acc.map (fun e => if e.1 == p then (e.1, e.2 + 1) else e)
    else acc ++ [(p, 1)]) []

/-- `getTopPublishers` (lines 258-269): sort the counts descending with
the JS comparator `(a, b) => b[1] - a[1]` and keep the first 20. -/
def getTopPublishers (packages : List PackageRecordB) : List (String × Nat) :=
  (sortStable (fun a b => (b.2 : Int) - (a.2 : Int))
    (publisherCounts packages)).take 20

/-- The summary statistics of `generateStats` (lines 243-256).
`lastUpdate` is wall clock and omitted. -/
structure StatsB where
  totalPackages : Nat
  totalPublishers : Nat
  totalVersions : Nat
  topPublishers : List (String × Nat)
deriving DecidableEq

/-- `generateStats` (WingetDetailedGenerator lines 243-256). -/
def generateStats (packages : List PackageRecordB) : StatsB :=
  { totalPackages := packages.length
    totalPublishers := (packages.map (fun p => p.latest.publisher)).dedup.length
    totalVersions := packages.foldl (fun acc pkg => acc + pkg.versions.length) 0
    topPublishers := getTopPublishers packages }

/-- The files a single `saveFiles` invocation writes
(WingetDetailedGenerator lines 209-241): the full record list, one
shard per publisher, one file per package.  `statsJson` records
whether this invocation also wrote the statistics artifact; `saveFiles`
never does, `generateStats` is a separate method. -/
structure SnapshotArtifacts where
  packagesJson : List PackageRecordB
  publisherShards : List (String × List PackageRecordB)
  packageFiles : List (String × PackageRecordB)
  statsJson : Option StatsB
deriving DecidableEq

/-- `saveFiles` (WingetDetailedGenerator lines 209-241). -/
def saveFiles (packages : List PackageRecordB) : SnapshotArtifacts :=
  { packagesJson := packages
    publisherShards := groupByPublisher packages
    packageFiles := packages.map (fun p => (p.id, p))
    statsJson := none }

/-- One write event of a run: a `saveFiles` call or the single
`generateStats` call. -/
inductive WriteEvent where
  | save (a : SnapshotArtifacts)
  | stats (s : StatsB)
deriving DecidableEq

/-- The batch loop of `generateApiFiles` (WingetDetailedGenerator lines
188-198): per batch, append its records to the accumulator, then on
every fifth batch index call `saveFiles` on the state so far.  Returns
the final accumulator and the checkpoint write events in order. -/
def checkpointGo (idx : Nat) (packages : List PackageRecordB) :
    List (List PackageRecordB) → List PackageRecordB × List WriteEvent
  | [] => (packages, [])
  | batch :: rest =>
    let packages2 := packages ++ batch
    let events := if idx % 5 == 0 then [WriteEvent.save (saveFiles packages2)] else []
    let r := checkpointGo (idx + 1) packages2 rest
    (r.1, events ++ r.2)

/-- The write events of a whole `generateApiFiles` run
(WingetDetailedGenerator lines 188-203): the intermediate checkpoints,
then the final `saveFiles`, then the one `generateStats`. -/
def generateApiFilesEvents (batches : List (List PackageRecordB)) : List WriteEvent :=
  let r := checkpointGo 0 [] batches
  r.2 ++ [WriteEvent.save (saveFiles r.1), WriteEvent.stats (generateStats r.1)]

/-- A primary manifest document carrying description "B". -/
def primaryDocB : Manifest := { emptyManifest with Description := some "B" }

/-- A locale manifest document carrying description "A". -/
def localeDocA : Manifest := { emptyManifest with Description := some "A" }

/-- A version directory listing where the primary document precedes
the locale document. -/
def primaryFirstFiles : List RFile :=
  [⟨"Pkg.yaml", some primaryDocB⟩, ⟨"Pkg.locale.en-US.yaml", some localeDocA⟩]

/-- A manifest whose Tags string holds an empty entry. -/
def emptyTagManifest : Manifest := { emptyManifest with Tags := some "a,,b" }

/-- A one-version, one-manifest-file package used as a concrete input
for the builder invariants. -/
def exampleVersionDir : VersionDir :=
  ⟨"1.0", "dir", [⟨"m.yaml", some emptyManifest⟩]⟩

/-- The record `processPackage "P" "K" [exampleVersionDir]` builds. -/
def exampleRecordA : PackageRecordA :=
  { id := "P.K"
    versions := ["1.0"]
    latest := { name := "K", publisher := "P", version := "1.0",
                tags := [], description := "", homepage := "",
                license := "", licenseUrl := "", author := "", moniker := "" }
    installers := []
    featured := false }

/-- A concrete engine B record used to exercise the snapshot writer. -/
def exampleRecordB : PackageRecordB :=
  { id := "P.K"
    versions := ["1.0"]
    latest := { name := "K", publisher := "P", version := "1.0",
                description := "", tags := [], homepage := "",
                license := "", licenseUrl := "", author := "" }
    installers := []
    moniker := ""
    minOSVersion := ""
    commands := []
    protocols := [] }

/-- A source whose first request hits the quota signal and whose second
request succeeds. -/
def quotaThenSuccess : Nat → Attempt Nat :=
  fun i => if i = 0 then Attempt.quotaErr else Attempt.success 7

/-- Version directories with identical names and identical first
recognized manifest file, but different trailing junk files and
different non-head manifest contents: material for the
only-the-head-manifest-matters invariant. -/
def headOnlyV : VersionDir := ⟨"2.0", "dir", [⟨"m.yaml", some primaryDocB⟩]⟩

/-- Same head version as `headOnlyV` plus an unrecognized extra file. -/
def headOnlyW : VersionDir :=
  ⟨"2.0", "dir", [⟨"m.yaml", some primaryDocB⟩, ⟨"junk.txt", some localeDocA⟩]⟩

/-- A non-head version carrying one manifest. -/
def tailVersionX : VersionDir := ⟨"1.0", "dir", [⟨"m.yaml", some primaryDocB⟩]⟩

/-- A non-head version with the same name but a different manifest. -/
def tailVersionY : VersionDir := ⟨"1.0", "dir", [⟨"m.yaml", some localeDocA⟩]⟩

/-! Helper lemmas about the comparator and the stable sort model. -/

theorem cmpComponents_nil (as : List Nat) :
    cmpComponents as [] = -(firstNonzero as) := by
  induction as with
  | nil => simp [cmpComponents, firstNonzero]
  | cons a t ih =>
    simp only [cmpComponents, firstNonzero]
    by_cases h : a = 0
    · simp [h, ih]
    · simp [h]

theorem cmpComponents_antisymm : ∀ as bs : List Nat,
    cmpComponents bs as = -(cmpComponents as bs) := by
  intro as
  induction as with
  | nil =>
    intro bs
    rw [cmpComponents_nil]
    simp [cmpComponents]
  | cons a t ih =>
    intro bs
    cases bs with
    | nil =>
      rw [cmpComponents_nil]
      simp [cmpComponents]
    | cons b u =>
      simp only [cmpComponents]
      by_cases h : a = b
      · subst h
        simp [ih]
      · have h2 : ¬ b = a := fun hh => h hh.symm
        simp only [if_neg h, if_neg h2]
        ring

theorem cmpVersions_antisymm (a b : String) :
    cmpVersions b a = -(cmpVersions a b) := by
  unfold cmpVersions
  exact cmpComponents_antisymm _ _

theorem sortInsert_perm (c : α → α → Int) (x : α) (l : List α) :
    (sortInsert c x l).Perm (x :: l) := by
  induction l with
  | nil => simp [sortInsert]
  | cons y ys ih =>
    simp only [sortInsert]
    by_cases h : c x y ≤ 0
    · simp [h]
    · simp only [if_neg h]
      exact (ih.cons y).trans (List.Perm.swap x y ys)

theorem sortStable_perm (c : α → α → Int) (l : List α) :
    (sortStable c l).Perm l := by
  induction l with
  | nil => simp [sortStable]
  | cons x xs ih =>
    exact (sortInsert_perm c x (sortStable c xs)).trans (ih.cons x)

theorem sortInsert_head? (c : α → α → Int) (x : α) (l : List α) :
    (sortInsert c x l).head? = some x ∨ (sortInsert c x l).head? = l.head? := by
  cases l with
  | nil => left; rfl
  | cons y ys =>
    simp only [sortInsert]
    by_cases h : c x y ≤ 0
    · left; simp [h]
    · right; simp [h]

theorem sortInsert_chain (c : α → α → Int)
    (hs : ∀ a b : α, c b a = -(c a b)) (x : α) (l : List α)
    (hl : List.Chain' (fun a b => c a b ≤ 0) l) :
    List.Chain' (fun a b => c a b ≤ 0) (sortInsert c x l) := by
  induction l with
  | nil => simp [sortInsert]
  | cons y ys ih =>
    simp only [sortInsert]
    by_cases h : c x y ≤ 0
    · rw [if_pos h]
      exact List.chain'_cons.mpr ⟨h, hl⟩
    · rw [if_neg h]
      have hyx : c y x ≤ 0 := by
        have hxy : 0 < c x y := lt_of_not_le h
        have := hs x y
        omega
      have hys : List.Chain' (fun a b => c a b ≤ 0) ys := hl.tail
      have hins := ih hys
      refine List.chain'_cons'.mpr ⟨?_, hins⟩
      intro b hb
      rcases sortInsert_head? c x ys with hh | hh
      · rw [hh] at hb
        cases hb
        exact hyx
      · rw [hh] at hb
        exact (List.chain'_cons'.mp hl).1 b hb

theorem sortStable_chain (c : α → α → Int)
    (hs : ∀ a b : α, c b a = -(c a b)) (l : List α) :
    List.Chain' (fun a b => c a b ≤ 0) (sortStable c l) := by
  induction l with
  | nil => simp [sortStable]
  | cons x xs ih =>
    exact sortInsert_chain c hs x (sortStable c xs) ih

/-! Helper lemmas about first-match file selection. -/

theorem find?_eq_head?_filter (p : α → Bool) (l : List α) :
    l.find? p = (l.filter p).head? := by
  induction l with
  | nil => rfl
  | cons a t ih =>
    by_cases h : p a
    · rw [List.find?_cons_of_pos _ h, List.filter_cons_of_pos h]
      rfl
    · rw [List.find?_cons_of_neg _ h, List.filter_cons_of_neg h, ih]

theorem filter_take_one (p : α → Bool) (l : List α) :
    ((l.filter p).take 1).filter p = (l.filter p).take 1 := by
  apply List.filter_eq_self.mpr
  intro a ha
  exact List.of_mem_filter (List.mem_of_mem_take ha)

theorem head?_take_one (l : List α) : (l.take 1).head? = l.head? := by
  cases l <;> rfl

theorem find?_take_one_filter (p : α → Bool) (l : List α) :
    ((l.filter p).take 1).find? p = l.find? p := by
  rw [find?_eq_head?_filter p ((l.filter p).take 1), filter_take_one,
    head?_take_one, ← find?_eq_head?_filter]

theorem any_eq_find?_isSome (p : α → Bool) (l : List α) :
    l.any p = (l.find? p).isSome := by
  induction l with
  | nil => rfl
  | cons a t ih =>
    by_cases h : p a
    · simp [List.find?_cons_of_pos _ h, h]
    · simp [List.find?_cons_of_neg _ h, h, ih]

theorem filter_eq_nil_of_any_false (p : α → Bool) (l : List α)
    (h : l.any p = false) : l.filter p = [] := by
  induction l with
  | nil => rfl
  | cons a t ih =>
    simp only [List.any_cons, Bool.or_eq_false_iff] at h
    simp [List.filter_cons, h.1, ih h.2]

/-! Helper lemmas for the per-publisher grouping of `saveFiles`. -/

theorem find?_map_update (l : List (String × List PackageRecordB))
    (p q : String) (r : PackageRecordB) :
    ((l.map (fun e => if e.1 == p then (e.1, e.2 ++ [r]) else e)).find?
        (fun e => e.1 == q))
      = (l.find? (fun e => e.1 == q)).map
          (fun e => if e.1 == p then (e.1, e.2 ++ [r]) else e) := by
  induction l with
  | nil => rfl
  | cons e t ih =>
    have hfst : ((if e.1 == p then (e.1, e.2 ++ [r]) else e)).1 = e.1 := by
      by_cases h : e.1 == p <;> simp [h]
    simp only [List.map_cons, List.find?, hfst]
    cases hq : (e.1 == q) with
    | true => rfl
    | false => simpa using ih

theorem upsertRecord_inv (acc : List (String × List PackageRecordB))
    (processed : List PackageRecordB) (r : PackageRecordB)
    (hinv : ∀ q : String, ((acc.find? (fun e => e.1 == q)).map Prod.snd)
      = if processed.any (fun x => x.latest.publisher == q)
        then some (processed.filter (fun x => x.latest.publisher == q)) else none) :
    ∀ q : String, (((upsertRecord acc r).find? (fun e => e.1 == q)).map Prod.snd)
      = if (processed ++ [r]).any (fun x => x.latest.publisher == q)
        then some ((processed ++ [r]).filter (fun x => x.latest.publisher == q))
        else none := by
  intro q
  unfold upsertRecord
  by_cases hacc : acc.any (fun e => e.1 == r.latest.publisher)
  · rw [if_pos hacc, find?_map_update]
    by_cases hq : r.latest.publisher = q
    · subst hq
      have hsome : (acc.find? (fun e => e.1 == r.latest.publisher)).isSome := by
        rw [← any_eq_find?_isSome]
        exact hacc
      obtain ⟨e0, he0⟩ := Option.isSome_iff_exists.mp hsome
      have he0p : (e0.1 == r.latest.publisher) = true := by
        simpa using List.find?_some he0
      have hold := hinv r.latest.publisher
      rw [he0] at hold
      by_cases hpa : processed.any (fun x => x.latest.publisher == r.latest.publisher)
      · rw [if_pos hpa] at hold
        have he02 : e0.2 = processed.filter (fun x => x.latest.publisher == r.latest.publisher) := by
          simpa using hold
        have hnew : ((processed ++ [r]).any (fun x => x.latest.publisher == r.latest.publisher)) = true := by
          simp [List.any_append]
        have he01 : e0.1 = r.latest.publisher := by simpa using he0p
        rw [he0, if_pos hnew, List.filter_append]
        simp [he01, he02]
      · rw [if_neg (by simpa using hpa)] at hold
        exact absurd hold (by simp)
    · cases hfind : acc.find? (fun e => e.1 == q) with
      | none =>
        have hold := hinv q
        rw [hfind] at hold
        have hpa : processed.any (fun x => x.latest.publisher == q) = false := by
          by_contra hcon
          rw [if_pos (by simpa using Bool.of_not_eq_false hcon)] at hold
          exact absurd hold.symm (by simp)
        have hrq : (r.latest.publisher == q) = false := by simp [hq]
        have hnew : ((processed ++ [r]).any (fun x => x.latest.publisher == q)) = false := by
          simp only [List.any_append, Bool.or_eq_false_iff]
          exact ⟨hpa, by simp [hrq]⟩
        rw [if_neg (by simp [hnew])]
        rfl
      | some e =>
        have hep : (e.1 == q) = true := by
          simpa using List.find?_some hfind
        have heq : e.1 = q := by simpa using hep
        have henep : (e.1 == r.latest.publisher) = false := by
          simp only [heq, beq_eq_false_iff_ne, ne_eq]
          exact fun hh => hq hh.symm
        have hold := hinv q
        rw [hfind] at hold
        have hpa : processed.any (fun x => x.latest.publisher == q) = true := by
          by_contra hcon
          rw [if_neg (by simpa using hcon)] at hold
          exact absurd hold (by simp)
        rw [if_pos hpa] at hold
        have hnew : ((processed ++ [r]).any (fun x => x.latest.publisher == q)) = true := by
          simp [List.any_append, hpa]
        have hrq : (r.latest.publisher == q) = false := by simp [hq]
        have hne : ¬ e.1 = r.latest.publisher := by
          rw [heq]
          exact fun hh => hq hh.symm
        rw [if_pos hnew, List.filter_append]
        simp only [Option.map_some', List.filter_cons, hrq, Bool.false_eq_true,
          if_false, List.filter_nil, List.append_nil, henep]
        simpa using hold
  · rw [if_neg hacc]
    have hnone : acc.find? (fun e => e.1 == r.latest.publisher) = none := by
      rw [← Option.not_isSome_iff_eq_none, ← any_eq_find?_isSome]
      simpa using hacc
    by_cases hq : r.latest.publisher = q
    · subst hq
      have hold := hinv r.latest.publisher
      rw [hnone] at hold
      have hpa : processed.any (fun x => x.latest.publisher == r.latest.publisher) = false := by
        by_contra hcon
        rw [if_pos (by simpa using Bool.of_not_eq_false hcon)] at hold
        exact absurd hold.symm (by simp)
      have hnew : ((processed ++ [r]).any (fun x => x.latest.publisher == r.latest.publisher)) = true := by
        simp [List.any_append]
      rw [List.find?_append, hnone, Option.none_or, if_pos hnew,
        List.filter_append, filter_eq_nil_of_any_false _ _ hpa]
      simp [List.find?]
    · have hrq : (r.latest.publisher == q) = false := by simp [hq]
      have hsingle : List.find? (fun e => e.1 == q) [(r.latest.publisher, [r])] = none := by
        simp [List.find?, hrq]
      have hnew : ((processed ++ [r]).any (fun x => x.latest.publisher == q))
          = (processed.any (fun x => x.latest.publisher == q)) := by
        simp [List.any_append, hrq]
      rw [List.find?_append, hsingle, Option.or_none, hnew, List.filter_append]
      simp only [List.filter_cons, hrq, Bool.false_eq_true, if_false,
        List.filter_nil, List.append_nil]
      exact hinv q

theorem foldl_upsert_inv : ∀ (rest : List PackageRecordB)
    (acc : List (String × List PackageRecordB)) (processed : List PackageRecordB),
    (∀ q : String, ((acc.find? (fun e => e.1 == q)).map Prod.snd)
      = if processed.any (fun x => x.latest.publisher == q)
        then some (processed.filter (fun x => x.latest.publisher == q)) else none) →
    ∀ q : String, (((rest.foldl upsertRecord acc).find? (fun e => e.1 == q)).map Prod.snd)
      = if (processed ++ rest).any (fun x => x.latest.publisher == q)
        then some ((processed ++ rest).filter (fun x => x.latest.publisher == q))
        else none := by
  intro rest
  induction rest with
  | nil =>
    intro acc processed hinv q
    simpa using hinv q
  | cons r t ih =>
    intro acc processed hinv q
    have step := upsertRecord_inv acc processed r hinv
    have hres := ih (upsertRecord acc r) (processed ++ [r]) step q
    rw [← List.append_cons] at hres
    simpa using hres

theorem groupByPublisher_find? (packages : List PackageRecordB) (q : String) :
    (((groupByPublisher packages).find? (fun e => e.1 == q)).map Prod.snd)
      = if packages.any (fun x => x.latest.publisher == q)
        then some (packages.filter (fun x => x.latest.publisher == q)) else none := by
  have hbase : ∀ p : String,
      ((([] : List (String × List PackageRecordB)).find? (fun e => e.1 == p)).map Prod.snd)
        = if ([] : List PackageRecordB).any (fun x => x.latest.publisher == p)
          then some (([] : List PackageRecordB).filter (fun x => x.latest.publisher == p))
          else none := by
    intro p
    rfl
  have := foldl_upsert_inv packages [] [] hbase q
  simpa [groupByPublisher] using this

/-! Helper lemmas for the checkpoint loop of `generateApiFiles`. -/

theorem checkpointGo_fst : ∀ (bs : List (List PackageRecordB))
    (idx : Nat) (acc : List PackageRecordB),
    (checkpointGo idx acc bs).1 = acc ++ bs.flatten := by
  intro bs
  induction bs with
  | nil =>
    intro idx acc
    simp [checkpointGo]
  | cons b t ih =>
    intro idx acc
    simp [checkpointGo, ih, List.append_assoc]

theorem checkpointGo_events : ∀ (bs : List (List PackageRecordB))
    (idx : Nat) (acc : List PackageRecordB) (ev : WriteEvent),
    ev ∈ (checkpointGo idx acc bs).2 →
    ∃ n, ev = WriteEvent.save (saveFiles (acc ++ (bs.take n).flatten)) := by
  intro bs
  induction bs with
  | nil =>
    intro idx acc ev hev
    simp [checkpointGo] at hev
  | cons b t ih =>
    intro idx acc ev hev
    simp only [checkpointGo, List.mem_append] at hev
    cases hev with
    | inl hev =>
      by_cases hidx : idx % 5 == 0
      · rw [if_pos hidx] at hev
        simp only [List.mem_singleton] at hev
        exact ⟨1, by simpa using hev⟩
      · rw [if_neg hidx] at hev
        simp at hev
    | inr hev =>
      obtain ⟨n, hn⟩ := ih (idx + 1) (acc ++ b) ev hev
      exact ⟨n + 1, by simpa [List.append_assoc] using hn⟩

/-! Helper lemma about engine A tag parsing. -/

theorem parseTags_no_empty (t : Option String) : "" ∉ parseTags t := by
  intro h
  have := List.of_mem_filter h
  simp [String.isEmpty] at this

/-! Claim theorems. -/

/-- Claim C1, counterexample: the claim is false as stated on two
points.  The engine B version lister `getVersionPaths` does no sorting
at all (an input listed ascending comes back ascending, even though
the comparator says "1.10.0" should precede "1.2.0" in descending
order), and under the engine A comparator the strings "1.2" and
"1.2.0" compare equal (result 0), not strictly ordered, because the
missing trailing component is read as 0. -/
theorem c1_counterexample :
    (getVersionPaths [⟨"1.2.0", "dir", []⟩, ⟨"1.10.0", "dir", []⟩]).map VersionDir.name
        = ["1.2.0", "1.10.0"]
    ∧ cmpVersions "1.10.0" "1.2.0" < 0
    ∧ cmpVersions "1.2" "1.2.0" = 0 := by
  exact ⟨by decide, by decide, by decide⟩

/-- Claim C1, amended: engine A `fetchPackageVersions` returns a
permutation of the directory-type entries that is adjacently sorted
descending under the dotted-numeric comparator (missing components
read as 0); on the example list the descending order is
["1.10.0", "1.2.0", "1.2"]; however "1.2" and "1.2.0" compare EQUAL
under the comparator rather than strictly, so their relative order is
whatever the stable sort inherited from the input, and the engine B
variant `getVersionPaths` does not sort at all. -/
theorem c1_version_sort :
    (∀ data : List VersionDir,
        (fetchPackageVersions data).Perm (data.filter (fun i => i.type == "dir"))
      ∧ List.Chain' (fun a b : VersionDir => cmpVersions a.name b.name ≤ 0)
          (fetchPackageVersions data))
    ∧ (fetchPackageVersions
        [⟨"1.2.0", "dir", []⟩, ⟨"1.10.0", "dir", []⟩, ⟨"1.2", "dir", []⟩]).map VersionDir.name
        = ["1.10.0", "1.2.0", "1.2"]
    ∧ (fetchPackageVersions [⟨"1.2", "dir", []⟩, ⟨"1.2.0", "dir", []⟩]).map VersionDir.name
        = ["1.2", "1.2.0"] := by
  refine ⟨fun data => ⟨sortStable_perm _ _, sortStable_chain _ ?_ _⟩, by decide, by decide⟩
  intro a b
  exact cmpVersions_antisymm a.name b.name

/-- Claim C2, counterexample: with input ["abc", "0"], the entry
"abc" fails to parse as a numeric-dotted string and "0" parses, yet
the sorted output keeps "abc" FIRST: the comparator coerces the
non-numeric component to 0, ties with "0", and the stable sort keeps
input order, so unparseable entries do not sort strictly after parsed
ones and no ordinal string comparison happens. -/
theorem c2_counterexample :
    (fetchPackageVersions [⟨"abc", "dir", []⟩, ⟨"0", "dir", []⟩]).map VersionDir.name
        = ["abc", "0"]
    ∧ parsesNumeric "abc" = false
    ∧ parsesNumeric "0" = true := by
  exact ⟨by decide, by decide, by decide⟩

/-- Claim C2, amended: entries that fail to parse are still included
(the sort is a permutation of the directory entries), but there is no
ordinal-string fallback and no parsed-before-unparseable guarantee:
every non-numeric component is coerced to 0 by the comparator
(`Number(x) || 0` yields 0 on NaN), so an unparseable entry orders as
its zero-coerced component list, ties resolved by stable input order
("abc" ties with "0"). -/
theorem c2_no_string_fallback :
    (∀ data : List VersionDir,
        (fetchPackageVersions data).Perm (data.filter (fun i => i.type == "dir")))
    ∧ (∀ cs : List Char, cs.all Char.isDigit = false → jsComponent cs = 0)
    ∧ cmpVersions "abc" "0" = 0 := by
  refine ⟨fun data => sortStable_perm _ _, ?_, by decide⟩
  intro cs h
  simp [jsComponent, h]

/-- Claim C2, witness for the amended theorem at the concrete
non-numeric component "ab". -/
theorem c2_witness : jsComponent ['a', 'b'] = 0 :=
  c2_no_string_fallback.2.1 ['a', 'b'] (by decide)

/-- Congruence of engine A `processPackage`: the result depends only
on the head version name, the tail version names, and the fetched
manifest of the head version. -/
theorem processPackage_congr (pub pkg : String) (v w : VersionDir)
    (rest rest2 : List VersionDir)
    (h1 : v.name = w.name)
    (h2 : rest.map VersionDir.name = rest2.map VersionDir.name)
    (h3 : fetchManifest (some v) = fetchManifest (some w)) :
    processPackage pub pkg (v :: rest) = processPackage pub pkg (w :: rest2) := by
  unfold processPackage
  simp only [List.head?_cons]
  rw [h3]
  cases hm : fetchManifest (some w) with
  | none => rfl
  | some m =>
    simp [List.map_cons, h1, h2]

/-- Congruence of engine B `processPackage`: with both heads
directory-typed, the result depends only on the head version name,
the filtered tail version names, and the first recognized manifest
file of the head version. -/
theorem processPackageDetailed_congr (pub pkg : String) (v w : VersionDir)
    (rest rest2 : List VersionDir)
    (h1 : v.name = w.name) (hv : v.type = "dir") (hw : w.type = "dir")
    (h2 : (getVersionPaths rest).map VersionDir.name
        = (getVersionPaths rest2).map VersionDir.name)
    (h3 : v.files.find? (fun f => isYamlName f.name)
        = w.files.find? (fun f => isYamlName f.name)) :
    processPackageDetailed pub pkg (v :: rest)
      = processPackageDetailed pub pkg (w :: rest2) := by
  have hgv : getVersionPaths (v :: rest) = v :: getVersionPaths rest := by
    simp [getVersionPaths, List.filter_cons, hv]
  have hgw : getVersionPaths (w :: rest2) = w :: getVersionPaths rest2 := by
    simp [getVersionPaths, List.filter_cons, hw]
  have hh : (getManifestFiles v.files).head? = (getManifestFiles w.files).head? := by
    unfold getManifestFiles
    rw [← find?_eq_head?_filter, ← find?_eq_head?_filter, h3]
  unfold processPackageDetailed
  rw [hgv, hgw]
  cases hv1 : getManifestFiles v.files with
  | nil =>
    cases hw1 : getManifestFiles w.files with
    | nil => simp [hv1, hw1]
    | cons g u =>
      rw [hv1, hw1] at hh
      simp at hh
  | cons f t =>
    cases hw1 : getManifestFiles w.files with
    | nil =>
      rw [hv1, hw1] at hh
      simp at hh
    | cons g u =>
      rw [hv1, hw1] at hh
      simp only [List.head?_cons, Option.some.injEq] at hh
      subst hh
      cases hc : f.content with
      | none => simp [hv1, hw1, hc]
      | some m => simp [hv1, hw1, hc, h1, h2]

/-- Claim C3, counterexample: the builders read exactly one manifest
document, the first file whose name has a recognized extension, so
with a PrimaryDoc (description "B") listed before a LocaleDoc
(description "A") the built latest.description is "B", not the
claimed "A": no LocaleDoc-over-PrimaryDoc precedence exists. -/
theorem c3_counterexample :
    ((processPackage "Pub" "Pkg" [⟨"1.0", "dir", primaryFirstFiles⟩]).1.map
        (fun r => r.latest.description)) = some "B"
    ∧ localeDocA.Description = some "A"
    ∧ primaryDocB.Description = some "B"
    ∧ ¬ ((processPackage "Pub" "Pkg" [⟨"1.0", "dir", primaryFirstFiles⟩]).1.map
        (fun r => r.latest.description)) = some "A" := by
  exact ⟨by decide, rfl, rfl, by decide⟩

/-- Claim C3, amended: there is no cross-document field precedence.
Both engines build the record from the single FIRST file of the
latest version whose name ends in .yaml or .yml (listing order
decides), with JS-truthiness fallback per field: replacing the file
list by just its first recognized file never changes the result. -/
theorem c3_single_document (pub pkg vn ty : String) (fs : List RFile)
    (rest : List VersionDir) :
    processPackage pub pkg (⟨vn, ty, fs⟩ :: rest)
      = processPackage pub pkg
          (⟨vn, ty, (fs.filter (fun f => isYamlName f.name)).take 1⟩ :: rest)
    ∧ processPackageDetailed pub pkg (⟨vn, "dir", fs⟩ :: rest)
      = processPackageDetailed pub pkg
          (⟨vn, "dir", (fs.filter (fun f => isYamlName f.name)).take 1⟩ :: rest) := by
  have h3 : fetchManifest (some ⟨vn, ty, fs⟩)
      = fetchManifest (some ⟨vn, ty, (fs.filter (fun f => isYamlName f.name)).take 1⟩) := by
    simp only [fetchManifest]
    rw [find?_take_one_filter]
  have h3d : List.find? (fun f => isYamlName f.name)
        ((⟨vn, "dir", fs⟩ : VersionDir).files)
      = List.find? (fun f => isYamlName f.name)
        ((⟨vn, "dir", (fs.filter (fun f => isYamlName f.name)).take 1⟩ : VersionDir).files) := by
    show List.find? (fun f => isYamlName f.name) fs
        = ((fs.filter (fun f => isYamlName f.name)).take 1).find?
            (fun f => isYamlName f.name)
    rw [find?_take_one_filter]
  exact ⟨processPackage_congr pub pkg _ _ rest rest rfl rfl h3,
    processPackageDetailed_congr pub pkg _ _ rest rest rfl rfl rfl rfl h3d⟩

/-- Claim C10: for both engines the metadata of a built record is
derived exclusively from the first recognized manifest file of the
head (latest) version; the other versions contribute only their names.
Stated as congruence: two version lists agreeing on the head name, the
tail names, and the head first-recognized-file lookup produce
identical results, whatever the other manifest documents hold. -/
theorem c10_head_manifest_only :
    (∀ (pub pkg : String) (v w : VersionDir) (rest rest2 : List VersionDir),
      v.name = w.name →
      rest.map VersionDir.name = rest2.map VersionDir.name →
      v.files.find? (fun f => isYamlName f.name)
        = w.files.find? (fun f => isYamlName f.name) →
      processPackage pub pkg (v :: rest) = processPackage pub pkg (w :: rest2))
    ∧ (∀ (pub pkg : String) (v w : VersionDir) (rest rest2 : List VersionDir),
      v.name = w.name → v.type = "dir" → w.type = "dir" →
      (getVersionPaths rest).map VersionDir.name
        = (getVersionPaths rest2).map VersionDir.name →
      v.files.find? (fun f => isYamlName f.name)
        = w.files.find? (fun f => isYamlName f.name) →
      processPackageDetailed pub pkg (v :: rest)
        = processPackageDetailed pub pkg (w :: rest2)) := by
  constructor
  · intro pub pkg v w rest rest2 h1 h2 h3
    apply processPackage_congr pub pkg v w rest rest2 h1 h2
    simp only [fetchManifest]
    rw [h3]
  · intro pub pkg v w rest rest2 h1 hv hw h2 h3
    exact processPackageDetailed_congr pub pkg v w rest rest2 h1 hv hw h2 h3

/-- Claim C10, witness: two concrete version lists that differ in the
junk files of the head version and in the manifest contents of the
non-head version produce identical records in both engines. -/
theorem c10_witness :
    processPackage "P" "K" (headOnlyV :: [tailVersionX])
      = processPackage "P" "K" (headOnlyW :: [tailVersionY])
    ∧ processPackageDetailed "P" "K" (headOnlyV :: [tailVersionX])
      = processPackageDetailed "P" "K" (headOnlyW :: [tailVersionY]) :=
  ⟨c10_head_manifest_only.1 "P" "K" headOnlyV headOnlyW [tailVersionX] [tailVersionY]
      rfl (by decide) (by decide),
   c10_head_manifest_only.2 "P" "K" headOnlyV headOnlyW [tailVersionX] [tailVersionY]
      rfl rfl rfl (by decide) (by decide)⟩

/-- Claim C4: a package whose version listing is empty yields null
from the builder in both engines, increments the error counter by 0
(engine A; engine B has no counter), and contributes zero entries to
the accumulated record list. -/
theorem c4_skip_on_empty (pub pkg : String) (acc : List PackageRecordA) :
    processPackage pub pkg [] = (none, 0)
    ∧ accumulate acc (processPackage pub pkg []).1 = acc
    ∧ processPackageDetailed pub pkg [] = none := by
  exact ⟨rfl, rfl, rfl⟩

/-- Claim C5: with maxRetries = 3 and a source whose every request
fails with a transient (non-quota) error, `fetchWithRetry` issues
exactly 3 request attempts and then the error propagates to the
caller (the call throws). -/
theorem c5_retry_ceiling {α : Type} (resp : Nat → Attempt α)
    (h : ∀ i, resp i = Attempt.transientErr) :
    fetchWithRetry resp 3 = FetchResult.thrown ∧ fetchAttempts resp 3 = 3 := by
  have e0 := h 0
  have e1 := h 1
  have e2 := h 2
  constructor
  · show (fetchWithRetryGo resp 3 0 3).1 = FetchResult.thrown
    simp [fetchWithRetryGo, e0, e1, e2]
  · show (fetchWithRetryGo resp 3 0 3).2 = 3
    simp [fetchWithRetryGo, e0, e1, e2]

/-- Claim C5, witness at the constant transiently-failing source. -/
theorem c5_witness :
    fetchWithRetry (fun _ => (Attempt.transientErr : Attempt Nat)) 3 = FetchResult.thrown
    ∧ fetchAttempts (fun _ => (Attempt.transientErr : Attempt Nat)) 3 = 3 :=
  c5_retry_ceiling (fun _ => Attempt.transientErr) (fun _ => rfl)

/-- Claim C6, counterexample: when every attempt hits the quota
signal, the retry loop consumes all its iterations through the
`continue` branch and then falls off the end, so the call resolves
successfully with `undefined` instead of failing: it returns without a
document and without an error. -/
theorem c6_counterexample :
    fetchWithRetry (fun _ => (Attempt.quotaErr : Attempt Nat)) 3 = FetchResult.undef
    ∧ (FetchResult.undef : FetchResult Nat) ≠ FetchResult.thrown
    ∧ fetchAttempts (fun _ => (Attempt.quotaErr : Attempt Nat)) 3 = 3 := by
  exact ⟨by decide, by decide, by decide⟩

/-- Claim C6, amended: on a quota-exceeded response the fetcher waits
a fixed cool-down and retries that one call, each quota retry
consuming one of the bounded loop iterations; but when every
iteration ends in a quota error the call does NOT fail: it resolves
with `undefined` (no document). -/
theorem c6_quota_retry :
    (∀ (α : Type) (resp : Nat → Attempt α) (d : α),
      resp 0 = Attempt.quotaErr → resp 1 = Attempt.success d →
      fetchWithRetry resp 3 = FetchResult.ok d)
    ∧ (∀ (α : Type) (resp : Nat → Attempt α),
      (∀ i, resp i = Attempt.quotaErr) →
      fetchWithRetry resp 3 = FetchResult.undef ∧ fetchAttempts resp 3 = 3) := by
  constructor
  · intro α resp d h0 h1
    show (fetchWithRetryGo resp 3 0 3).1 = FetchResult.ok d
    simp [fetchWithRetryGo, h0, h1]
  · intro α resp h
    have e0 := h 0
    have e1 := h 1
    have e2 := h 2
    constructor
    · show (fetchWithRetryGo resp 3 0 3).1 = FetchResult.undef
      simp [fetchWithRetryGo, e0, e1, e2]
    · show (fetchWithRetryGo resp 3 0 3).2 = 3
      simp [fetchWithRetryGo, e0, e1, e2]

/-- Claim C6, witness: a quota error followed by a success is retried
to success, and the all-quota source resolves with `undefined` after
3 attempts. -/
theorem c6_witness :
    fetchWithRetry quotaThenSuccess 3 = FetchResult.ok 7
    ∧ fetchWithRetry (fun _ => (Attempt.quotaErr : Attempt Nat)) 3 = FetchResult.undef
    ∧ fetchAttempts (fun _ => (Attempt.quotaErr : Attempt Nat)) 3 = 3 :=
  ⟨c6_quota_retry.1 Nat quotaThenSuccess 7 rfl rfl,
   (c6_quota_retry.2 Nat (fun _ => Attempt.quotaErr) (fun _ => rfl)).1,
   (c6_quota_retry.2 Nat (fun _ => Attempt.quotaErr) (fun _ => rfl)).2⟩

/-- Claim C7, counterexample: in the engine B builder the tags string
"a,,b" produces ["a", "", "b"]: the empty entry between the two
commas is kept, because that variant maps trim over the split without
filtering falsy entries, so empty-string entries are NOT discarded in
every built record. -/
theorem c7_counterexample :
    ((processPackageDetailed "Pub" "Pkg"
        [⟨"1.0", "dir", [⟨"m.yaml", some emptyTagManifest⟩]⟩]).map
      (fun r => r.latest.tags)) = some ["a", "", "b"]
    ∧ "" ∈ ["a", "", "b"] := by
  exact ⟨by decide, by decide⟩

/-- Claim C7, amended: both engines read tags off the single selected
manifest in source order, trimmed, without deduplication, and an
absent field gives []; but only engine A discards empty-string
entries (filter(Boolean)); engine B keeps them. -/
theorem c7_tags (pub pkg vn : String) (m : Manifest) (rest : List VersionDir) :
    ((processPackage pub pkg (⟨vn, "dir", [⟨"manifest.yaml", some m⟩]⟩ :: rest)).1.map
        (fun r => r.latest.tags)) = some (parseTags m.Tags)
    ∧ ((processPackageDetailed pub pkg
          (⟨vn, "dir", [⟨"manifest.yaml", some m⟩]⟩ :: rest)).map
        (fun r => r.latest.tags)) = some (parseTagsDetailed m.Tags)
    ∧ "" ∉ parseTags m.Tags
    ∧ parseTags (some "ssh, ssh") = ["ssh", "ssh"]
    ∧ parseTags none = []
    ∧ parseTagsDetailed none = []
    ∧ parseTagsDetailed (some "a,,b") = ["a", "", "b"] := by
  refine ⟨rfl, ?_, parseTags_no_empty m.Tags, by decide, rfl, rfl, by decide⟩
  show ((processPackageDetailed pub pkg
      (⟨vn, "dir", [⟨"manifest.yaml", some m⟩]⟩ :: rest)).map
    (fun r => r.latest.tags)) = some (parseTagsDetailed m.Tags)
  rfl

/-- Claim C8, counterexample: a `saveFiles` invocation writes no
statistics artifact (the first checkpoint write of a run included);
the statistics file is produced only by the separate `generateStats`
call, issued once after the final save.  So not every snapshot-write
invocation writes all three logical artifacts. -/
theorem c8_counterexample :
    (saveFiles [exampleRecordB]).statsJson = none
    ∧ (generateApiFilesEvents [[exampleRecordB]]).head?
        = some (WriteEvent.save (saveFiles [exampleRecordB])) := by
  exact ⟨rfl, by decide⟩

/-- Claim C8, amended: every `saveFiles` invocation (intermediate
checkpoint or final write, identical code path) writes the full
record list, the per-package files, and one shard per publisher
(grouped by latest.publisher) from the same accumulated state — each
write event of a run is a full materialization of a batch-accumulated
state — but the statistics artifact is NOT part of it: it is written
once, by `generateStats`, after the final save. -/
theorem c8_snapshot_write :
    (∀ packages : List PackageRecordB,
        (saveFiles packages).packagesJson = packages
      ∧ (saveFiles packages).packageFiles = packages.map (fun p => (p.id, p))
      ∧ (saveFiles packages).statsJson = none)
    ∧ (∀ (packages : List PackageRecordB) (q : String),
        (((saveFiles packages).publisherShards.find? (fun e => e.1 == q)).map Prod.snd)
          = if packages.any (fun x => x.latest.publisher == q)
            then some (packages.filter (fun x => x.latest.publisher == q)) else none)
    ∧ (∀ (batches : List (List PackageRecordB)) (ev : WriteEvent),
        ev ∈ generateApiFilesEvents batches →
        (∃ n, ev = WriteEvent.save (saveFiles ((batches.take n).flatten)))
        ∨ ev = WriteEvent.stats (generateStats batches.flatten)) := by
  refine ⟨fun packages => ⟨rfl, rfl, rfl⟩, ?_, ?_⟩
  · intro packages q
    exact groupByPublisher_find? packages q
  · intro batches ev hev
    simp only [generateApiFilesEvents, List.mem_append] at hev
    cases hev with
    | inl h =>
      obtain ⟨n, hn⟩ := checkpointGo_events batches 0 [] ev h
      left
      exact ⟨n, by simpa using hn⟩
    | inr h =>
      rw [checkpointGo_fst] at h
      simp only [List.nil_append, List.mem_cons, List.not_mem_nil, or_false] at h
      cases h with
      | inl h =>
        left
        exact ⟨batches.length, by simpa [List.take_length] using h⟩
      | inr h =>
        right
        exact h

/-- Claim C8, witness: the checkpoint write of a one-batch run is the
full materialization of the prefix state. -/
theorem c8_witness :
    (∃ n, WriteEvent.save (saveFiles [exampleRecordB])
        = WriteEvent.save (saveFiles (([[exampleRecordB]].take n).flatten)))
    ∨ WriteEvent.save (saveFiles [exampleRecordB])
        = WriteEvent.stats (generateStats [[exampleRecordB]].flatten) :=
  c8_snapshot_write.2.2 [[exampleRecordB]]
    (WriteEvent.save (saveFiles [exampleRecordB])) (by decide)

/-- Claim C9: in both engines a successfully built record satisfies
latest.version = versions[0], the head of its version list. -/
theorem c9_latest_head :
    (∀ (pub pkg : String) (versions : List VersionDir)
        (r : PackageRecordA) (n : Nat),
      processPackage pub pkg versions = (some r, n) →
      r.versions.head? = some r.latest.version)
    ∧ (∀ (pub pkg : String) (listing : List VersionDir) (r : PackageRecordB),
      processPackageDetailed pub pkg listing = some r →
      r.versions.head? = some r.latest.version) := by
  constructor
  · intro pub pkg versions r n h
    cases versions with
    | nil => simp [processPackage, fetchManifest] at h
    | cons v rest =>
      unfold processPackage at h
      simp only [List.head?_cons] at h
      cases hm : fetchManifest (some v) with
      | none =>
        rw [hm] at h
        simp at h
      | some m =>
        rw [hm] at h
        have hfst := congrArg Prod.fst h
        simp only at hfst
        have hr := Option.some.inj hfst
        rw [← hr]
        simp
  · intro pub pkg listing r h
    simp only [processPackageDetailed] at h
    cases hg : getVersionPaths listing with
    | nil =>
      rw [hg] at h
      simp at h
    | cons lv t =>
      rw [hg] at h
      dsimp only at h
      cases hf : getManifestFiles lv.files with
      | nil =>
        rw [hf] at h
        simp at h
      | cons f u =>
        rw [hf] at h
        dsimp only at h
        cases hc : f.content with
        | none =>
          rw [hc] at h
          simp at h
        | some m =>
          rw [hc] at h
          have hr := Option.some.inj h
          rw [← hr]
          simp

/-- Claim C9, witness at a concrete one-version package in both
engines. -/
theorem c9_witness :
    exampleRecordA.versions.head? = some exampleRecordA.latest.version
    ∧ exampleRecordB.versions.head? = some exampleRecordB.latest.version :=
  ⟨c9_latest_head.1 "P" "K" [exampleVersionDir] exampleRecordA 0 (by decide),
   c9_latest_head.2 "P" "K" [exampleVersionDir] exampleRecordB (by decide)⟩
